import Mathlib

/-!
Verification of the mycon Befunge-98 interpreter core against its design
specification.  The Rust sources are shallowly embedded: machine integers
(`i32`) are modelled as `Int` with explicit two's-complement wrapping
(`wrap32`) at every operation whose Rust counterpart uses wrapping
arithmetic, `Vec` is modelled as `List`, fallible or panicking code returns
`Option` (with `none` standing for a panic or for an error path, as
documented at each definition).
-/

/-! ## Machine integer helpers

Rust `i32` values are represented as mathematical integers kept in the
canonical range `[-2^31, 2^31)`.  `wrap32` reduces an integer into that
range (two's-complement wrap-around); `pat32` gives the 32-bit pattern of a
value as a natural number in `[0, 2^32)`.  Rust `/` on `i32` truncates
toward zero, which is `Int.tdiv`; arithmetic shift right by `s` is floor
division by `2 ^ s`, which is `Int.fdiv`. -/

def wrap32 (z : Int) : Int := (z + 2 ^ 31) % 2 ^ 32 - 2 ^ 31

def pat32 (z : Int) : Nat := (z % 2 ^ 32).toNat

def sar32 (z : Int) (s : Nat) : Int := Int.fdiv z (2 ^ s)

/-- The cell/stack element type (`type Value = i32` in src/data/mod.rs). -/
abbrev Value := Int

/-- `Point` from src/data/mod.rs. -/
structure Point where
  x : Int
  y : Int
deriving DecidableEq, Repr

/-- `Delta` from src/data/mod.rs. -/
structure Delta where
  dx : Int
  dy : Int
deriving DecidableEq, Repr

/-- `Delta::reverse`: componentwise negation (wrapping at `i32::MIN`). -/
def Delta.reverse (d : Delta) : Delta := ⟨wrap32 (-d.dx), wrap32 (-d.dy)⟩

/-- `impl Add<Delta> for Point` (release-mode Rust wraps on overflow, and
the spec stipulates two's-complement coordinate arithmetic). -/
def Point.addD (p : Point) (d : Delta) : Point :=
  ⟨wrap32 (p.x + d.dx), wrap32 (p.y + d.dy)⟩

/-- `impl Sub<Delta> for Point`. -/
def Point.subD (p : Point) (d : Delta) : Point :=
  ⟨wrap32 (p.x - d.dx), wrap32 (p.y - d.dy)⟩

/-- `impl Mul<i32> for Delta`. -/
def Delta.mulW (d : Delta) (n : Int) : Delta :=
  ⟨wrap32 (d.dx * n), wrap32 (d.dy * n)⟩

/-! ## Stack stack (src/data/stack.rs)

A Rust `Vec` pushes and pops at its end, so a `Vec` used as a stack is
modelled as a `List` whose HEAD is the TOP (the list is the reverse of the
`Vec`'s memory order).  `StackStack.sts` likewise has the top stack at
the head.  Where the source indexes a `Vec` from its front (only
`StackStack::nth`), the model applies `List.reverse` first so the index
arithmetic of the source can be kept verbatim. -/

structure StackStack where
  sts : List (List Value)
deriving DecidableEq, Repr

/-- `StackStack::new`: a single empty stack. -/
def StackStack.new : StackStack := ⟨[[]]⟩

/-- `StackStack::top` (the source indexes `stacks[len - 1]`; the stack
stack invariantly holds at least one stack, so the default is unreachable). -/
def StackStack.top (s : StackStack) : List Value := s.sts.headD []

/-- Replace the top stack (the source mutates `stacks[len - 1]` in place). -/
def StackStack.setTop (s : StackStack) (t : List Value) : StackStack :=
  ⟨t :: s.sts.tail⟩

/-- `StackStack::single`. -/
def StackStack.single (s : StackStack) : Bool := s.sts.length == 1

/-- `StackStack::push`. -/
def StackStack.push (s : StackStack) (v : Value) : StackStack :=
  s.setTop (v :: s.top)

/-- `StackStack::pop`: returns the popped value (0 if the top stack is
empty) together with the new stack stack. -/
def StackStack.pop (s : StackStack) : Value × StackStack :=
  match s.top with
  | [] => (0, s)
  | v :: rest => (v, s.setTop rest)

/-- `StackStack::push_string`: push a 0 terminator, then the character
codes in reverse `Vec` order, so the first character ends on top.  Returns
the number of cells pushed. -/
def StackStack.push_string (s : StackStack) (cs : List Nat) : Nat × StackStack :=
  (cs.length + 1, s.setTop ((cs.map fun c => (c : Int)) ++ 0 :: s.top))

/-- `std::char::from_u32` succeeds on exactly the non-surrogate code
points below `0x110000`; a negative `i32` reinterpreted `as u32` is at
least `2^31` and hence invalid. -/
def validChar (v : Int) : Bool :=
  decide (0 ≤ v ∧ (v < 0xd800 ∨ (0xe000 ≤ v ∧ v < 0x110000)))

/-- Loop body of `StackStack::pop_string` acting on the top stack: pop
until a 0 is found (popping an empty stack yields 0, ending the loop) and
fail on an invalid code point. -/
def popStringAux : List Value → Option (List Value) × List Value
  | [] => (some [], [])
  | v :: rest =>
    if v = 0 then (some [], rest)
    else if validChar v then
      match popStringAux rest with
      | (some cs, rem) => (some (v :: cs), rem)
      | (none, rem) => (none, rem)
    else (none, rest)

/-- `StackStack::pop_string`. -/
def StackStack.pop_string (s : StackStack) : Option (List Value) × StackStack :=
  ((popStringAux s.top).1, s.setTop (popStringAux s.top).2)

/-- `StackStack::clear`: empty the top stack only. -/
def StackStack.clear (s : StackStack) : StackStack := s.setTop []

/-- `StackStack::nth`.  The source reads `top[len - n]` after checking
`n >= len`; `top.reverse` below is the `Vec` in its memory order (bottom
first), so the source's index expression is kept literally.  The result is
`none` exactly when the source's indexing panics (`n = 0` with a non-empty
top stack, where `top[len]` is out of bounds). -/
def StackStack.nth (s : StackStack) (n : Nat) : Option Value :=
  let t := s.top
  if n ≥ t.length then some 0
  else t.reverse.get? (t.length - n)

/-- `StackStack::create_stack` (the `{` instruction).  `m` is
`n as u32 as usize`, only used when `n > 0` where it equals `n.toNat`.
For `n > 0`, `top.split_off(len - m)` hands the top `m` cells to the new
stack when `m ≤ len`; otherwise the source calls `top.split_off(len)`,
which splits off an empty suffix, so nothing is transferred and the new
stack consists of zeros only. -/
def StackStack.create_stack (s : StackStack) (n : Int) (pt : Point) : StackStack :=
  let t := s.top
  let len := t.length
  let m := n.toNat
  let moved : List Value × List Value :=
    if 0 < n then
      if m ≤ len then (t.take m, t.drop m)
      else (List.replicate (m - len) 0, t)
    else if n < 0 then ([], List.replicate (-n).toNat 0 ++ t)
    else ([], t)
  ⟨moved.1 :: (pt.y :: pt.x :: moved.2) :: s.sts.tail⟩

/-- `top.pop().unwrap_or(0)`: pop a cell off a single stack, 0 if it is
empty. -/
def popCell : List Value → Value × List Value
  | [] => (0, [])
  | a :: r => (a, r)

/-- `StackStack::delete_stack` (the `}` instruction).  `none` models the
`assert!(!self.single())` panic.  The popped stack is `old`; a `Point` is
popped from the stack below (0 for missing cells); for `n > 0` the top `m`
cells of `old` move onto that stack (`old.split_off(len)` when `m > len`
again transfers nothing), for `n < 0` cells are dropped. -/
def StackStack.delete_stack (s : StackStack) (n : Int) : Option (Point × StackStack) :=
  if s.single then none
  else
    match s.sts with
    | [] => none
    | old :: rest =>
      let len := old.length
      let t := rest.headD []
      let ry := popCell t
      let y := ry.1
      let rx := popCell ry.2
      let x := rx.1
      let t2 := rx.2
      let m := n.toNat
      let t3 :=
        if 0 < n then
          if m ≤ len then old.take m ++ t2
          else List.replicate (m - len) 0 ++ t2
        else if n < 0 then t2.drop (min t2.length (-n).toNat)
        else t2
      some (⟨x, y⟩, ⟨t3 :: rest.tail⟩)

/-- One direction of `StackStack::transfer_elements`: repeat
`{ let v = src.pop().unwrap_or(0); dst.push(v); }`. -/
def transferLoop : Nat → List Value → List Value → List Value × List Value
  | 0, src, dst => (src, dst)
  | k + 1, src, dst =>
    match src with
    | [] => transferLoop k [] (0 :: dst)
    | v :: rest => transferLoop k rest (v :: dst)

/-- `StackStack::transfer_elements` (the `u` instruction); `none` models
the `assert!(!self.single())` panic. -/
def StackStack.transfer_elements (s : StackStack) (n : Int) : Option StackStack :=
  if s.single then none
  else
    match s.sts with
    | [] => none
    | t :: rest =>
      let sec := rest.headD []
      if 0 < n then
        let r := transferLoop n.toNat sec t
        some ⟨r.2 :: r.1 :: rest.tail⟩
      else if n < 0 then
        let r := transferLoop (-n).toNat t sec
        some ⟨r.1 :: r.2 :: rest.tail⟩
      else some ⟨t :: sec :: rest.tail⟩

/-! ## Funge tree (src/data/space/tree.rs)

Constants: `CHUNK_SHIFT = 4`, `CHUNK_SIZE = 16`, `CHUNK_SHIFT_BACK = 28`,
`OFFSET = 8 << 8 = 2048`.  A depth-0 tree is a 16x16 chunk of cells, a
depth-(d+1) tree is a 16x16 array of optional subtrees; `FungeTree` holds a
tree of some depth at most 7.  Coordinates travel through `get`/`set` as
`i32` bit patterns consumed four bits at a time from the top: `get_indices`
takes the top nibble of the 32-bit pattern, `shift` discards it.  The model
passes the pattern as a natural number below `2^32`; a left shift of the
`i32` by `s` has pattern `pat * 2^s % 2^32`.  Array indices are naturals
(always below 16 where reachable). -/

def NTree : Nat → Type
  | 0 => Nat → Nat → Int
  | d + 1 => Nat → Nat → Option (NTree d)

/-- `Default` for `Chunk` (all cells 32) and `Node` (all children `None`). -/
def NTree.base : (d : Nat) → NTree d
  | 0 => fun _ _ => 32
  | _ + 1 => fun _ _ => none

/-- `get_indices`: the top nibble of a 32-bit pattern. -/
def nib (u : Nat) : Nat := u / 2 ^ 28 % 16

/-- `shift`: `x << CHUNK_SHIFT` on the bit pattern. -/
def shl4 (u : Nat) : Nat := u * 16 % 2 ^ 32

/-- Two-argument function update, for chunk cells and node children. -/
def updf {α : Type} (f : Nat → Nat → α) (i j : Nat) (v : α) : Nat → Nat → α :=
  fun a b => if a = i ∧ b = j then v else f a b

/-- `Tree::get` for `Chunk` (depth 0) and `Node` (depth d+1): an absent
child reads as 32. -/
def NTree.get : (d : Nat) → NTree d → Nat → Nat → Int
  | 0, t, x, y => t (nib x) (nib y)
  | d + 1, t, x, y =>
    match t (nib x) (nib y) with
    | some sub => NTree.get d sub (shl4 x) (shl4 y)
    | none => 32

/-- `Tree::set` for `Chunk` and `Node`, returning the new tree and the old
cell value.  Writing 32 into an absent child allocates nothing and returns
32; otherwise a default subtree is created first. -/
def NTree.set : (d : Nat) → NTree d → Nat → Nat → Int → NTree d × Int
  | 0, t, x, y, v => (updf t (nib x) (nib y) v, t (nib x) (nib y))
  | d + 1, t, x, y, v =>
    match t (nib x) (nib y) with
    | some sub =>
      let r := NTree.set d sub (shl4 x) (shl4 y) v
      (updf t (nib x) (nib y) (some r.1), r.2)
    | none =>
      if v = 32 then (t, 32)
      else
        let r := NTree.set d (NTree.base d) (shl4 x) (shl4 y) v
        (updf t (nib x) (nib y) (some r.1), r.2)

/-- The `FungeTree` enum `Depth0 ... Depth7`: a tree tagged with its depth. -/
structure FungeTree where
  depth : Nat
  tree : NTree depth

/-- `FungeTree::default()`: `Depth0` with an empty chunk. -/
def FungeTree.empty : FungeTree := ⟨0, NTree.base 0⟩

/-- `offset`: `wrapping_add(OFFSET)` with `OFFSET = 2048`. -/
def offset32 (z : Int) : Int := wrap32 (z + 2048)

/-- `FungeTree::get` (macro `get_case`): at depth `d` the offset
coordinate is shifted left by `(7 - d) * CHUNK_SHIFT` before the
descent. -/
def FungeTree.get (t : FungeTree) (x y : Int) : Int :=
  let px := pat32 (offset32 x)
  let py := pat32 (offset32 y)
  NTree.get t.depth t.tree (px * 2 ^ ((7 - t.depth) * 4) % 2 ^ 32)
    (py * 2 ^ ((7 - t.depth) * 4) % 2 ^ 32)

/-- `FungeTree::set_rec` (macro `set_case`).  At depth `d < 7` with
`dd = d + 1`: if `x >> (dd*4)` and `y >> (dd*4)` (arithmetic shifts of the
offset `i32` coordinates) both equal `OFFSET >> (dd*4)`, the point is
covered and the write descends with shift `(8 - dd) * 4`; writing 32
outside the covered region returns 32 without effect; otherwise the tree
is regrown one level (the old tree becomes the child at index
`(OFFSET >> (dd*4)) % 16` of a fresh node) and the write is retried.  At
depth 7 the write descends unconditionally.  The Rust recursion grows the
depth toward 7, so at most 8 iterations occur; `fuel` (called with 8) only
renders that termination argument structural, the base case is
unreachable. -/
def FungeTree.setRec : Nat → FungeTree → Int → Int → Int → FungeTree × Int
  | 0, t, _, _, _ => (t, 32)
  | fuel + 1, t, x, y, v =>
    if t.depth = 7 then
      let r := NTree.set t.depth t.tree (pat32 x) (pat32 y) v
      (⟨t.depth, r.1⟩, r.2)
    else
      let dd := t.depth + 1
      let s := dd * 4
      let tx := sar32 x s
      let ty := sar32 y s
      let ix : Int := Int.tdiv 2048 (2 ^ s)
      if tx = ix ∧ ty = ix then
        let sh := (8 - dd) * 4
        let r := NTree.set t.depth t.tree (pat32 x * 2 ^ sh % 2 ^ 32)
          (pat32 y * 2 ^ sh % 2 ^ 32) v
        (⟨t.depth, r.1⟩, r.2)
      else if v = 32 then (t, 32)
      else
        let ixn := ix.toNat % 16
        let grown : FungeTree :=
          ⟨dd, (updf (fun _ _ => none) ixn ixn (some t.tree) : NTree dd)⟩
        FungeTree.setRec fuel grown x y v

/-- `FungeTree::set`: apply the offset, then `set_rec`. -/
def FungeTree.set (t : FungeTree) (x y v : Int) : FungeTree × Int :=
  FungeTree.setRec 8 t (offset32 x) (offset32 y) v

/-! ## Bounds (src/data/space.rs)

`nonempty_x`/`nonempty_y` are `BTreeMap`s from coordinate to the count of
non-space cells in that column/row; the model uses association lists (in
insertion order).  `set_min_max` takes the least and greatest key with a
positive count, which is what the source's ascending
`iter().filter_map(..).next()` / `next_back()` produce, with 0 for an
empty map. -/

structure Bounds where
  min_x : Int
  min_y : Int
  max_x : Int
  max_y : Int
  nonempty_x : List (Int × Nat)
  nonempty_y : List (Int × Nat)
deriving DecidableEq, Repr

def Bounds.new : Bounds := ⟨0, 0, 0, 0, [], []⟩

/-- `entry(k).or_insert(0) += 1`. -/
def bmapInc : List (Int × Nat) → Int → List (Int × Nat)
  | [], k => [(k, 1)]
  | (a, c) :: rest, k =>
    if a = k then (a, c + 1) :: rest else (a, c) :: bmapInc rest k

/-- `entry(k).and_modify(|r| *r -= 1)` (no entry: no effect; the count is
positive whenever this runs, since it undoes an earlier increment). -/
def bmapDec : List (Int × Nat) → Int → List (Int × Nat)
  | [], _ => []
  | (a, c) :: rest, k =>
    if a = k then (a, c - 1) :: rest else (a, c) :: bmapDec rest k

/-- Keys with a positive count (the survivors of the source's
`filter_map`). -/
def posKeys (m : List (Int × Nat)) : List Int :=
  (m.filter fun p => p.2 ≠ 0).map Prod.fst

/-- Least key with positive count, 0 if none (`next().unwrap_or(0)` over
the ascending `BTreeMap` iterator). -/
def minKey (m : List (Int × Nat)) : Int :=
  match posKeys m with
  | [] => 0
  | k :: ks => ks.foldl min k

/-- Greatest key with positive count, 0 if none. -/
def maxKey (m : List (Int × Nat)) : Int :=
  match posKeys m with
  | [] => 0
  | k :: ks => ks.foldl max k

/-- `Bounds::set_min_max`. -/
def Bounds.set_min_max (b : Bounds) : Bounds :=
  { b with
    min_x := minKey b.nonempty_x
    min_y := minKey b.nonempty_y
    max_x := maxKey b.nonempty_x
    max_y := maxKey b.nonempty_y }

/-- `Bounds::update`. -/
def Bounds.update (b : Bounds) (p : Point) (old new : Value) : Bounds :=
  if old = 32 ∧ new ≠ 32 then
    Bounds.set_min_max
      { b with
        nonempty_x := bmapInc b.nonempty_x p.x
        nonempty_y := bmapInc b.nonempty_y p.y }
  else if old ≠ 32 ∧ new = 32 then
    Bounds.set_min_max
      { b with
        nonempty_x := bmapDec b.nonempty_x p.x
        nonempty_y := bmapDec b.nonempty_y p.y }
  else b

/-! ## Space (src/data/space.rs) -/

structure Space where
  tree : FungeTree
  bounds : Bounds

/-- `Space::new`. -/
def Space.new : Space := ⟨FungeTree.empty, Bounds.new⟩

/-- `Space::get`. -/
def Space.get (s : Space) (p : Point) : Value := s.tree.get p.x p.y

/-- `Space::set`. -/
def Space.set (s : Space) (p : Point) (v : Value) : Space :=
  let r := s.tree.set p.x p.y v
  ⟨r.1, s.bounds.update p r.2 v⟩

/-- `Space::is_last`: whether stepping from `p` by `d` leaves the bounding
box. -/
def Space.is_last (s : Space) (p : Point) (d : Delta) : Bool :=
  let b := s.bounds
  let lastx : Bool :=
    if 0 ≤ d.dx then decide (wrap32 (b.max_x - d.dx) < p.x)
    else decide (p.x < wrap32 (b.min_x - d.dx))
  let lasty : Bool :=
    if 0 ≤ d.dy then decide (wrap32 (b.max_y - d.dy) < p.y)
    else decide (p.y < wrap32 (b.min_y - d.dy))
  lastx || lasty

/-- `Space::new_position`: step `p` by `d`, wrapping to the other side of
the bounding box when the step would leave it.  `nx`/`ny` use Rust `i32`
division (truncation toward zero, `Int.tdiv`) and `i32::max_value()` for a
zero delta component. -/
def Space.new_position (s : Space) (p : Point) (d : Delta) : Point :=
  let b := s.bounds
  let lastx : Bool :=
    if 0 ≤ d.dx then decide (wrap32 (b.max_x - d.dx) < p.x)
    else decide (p.x < wrap32 (b.min_x - d.dx))
  let sx : Int :=
    if 0 ≤ d.dx then wrap32 (p.x - b.min_x) else wrap32 (p.x - b.max_x)
  let lasty : Bool :=
    if 0 ≤ d.dy then decide (wrap32 (b.max_y - d.dy) < p.y)
    else decide (p.y < wrap32 (b.min_y - d.dy))
  let sy : Int :=
    if 0 ≤ d.dy then wrap32 (p.y - b.min_y) else wrap32 (p.y - b.max_y)
  if lastx || lasty then
    let nx : Int := if d.dx = 0 then 2 ^ 31 - 1 else Int.tdiv sx d.dx
    let ny : Int := if d.dy = 0 then 2 ^ 31 - 1 else Int.tdiv sy d.dy
    let n := min nx ny
    p.subD (d.mulW n)
  else
    p.addD d

/-! ## Program input (src/config.rs)

`Config` holds a buffered reader and a read-ahead line buffer.  The model
keeps the buffer as a list of character codes and the rest of the input
stream as the list of chunks that successive `read_line` calls would
return; an exhausted stream is the empty list, where `read_line` returns
`Ok(0)` and appends nothing.  Output flushing always succeeds and read
errors are not modelled (an `Err` from `read_line` would take the
`ReadOutcome.fail` path below). -/

structure InputState where
  buffer : List Nat
  lines : List (List Nat)
deriving DecidableEq, Repr

/-- `read_line` on the buffered reader: append the next chunk, or nothing
at end of input. -/
def InputState.readLine (s : InputState) : InputState :=
  match s.lines with
  | [] => s
  | l :: rest => ⟨s.buffer ++ l, rest⟩

/-- Result of `Config::read_char`: `ok` returns a character, `fail` is the
source's `None` (flush or read error), `crashed` is a panic. -/
inductive ReadOutcome where
  | ok (c : Nat) (s : InputState)
  | fail (s : InputState)
  | crashed
deriving DecidableEq, Repr

/-- `Config::read_char`: flush (always succeeds here), fill the buffer if
it is empty, then take `self.input_buffer.chars().nth(0).unwrap()`.  At
end of input `read_line` succeeds having read zero bytes, the buffer stays
empty, and the `unwrap` panics: `crashed`. -/
def InputState.read_char (s : InputState) : ReadOutcome :=
  let s := if s.buffer.isEmpty then s.readLine else s
  match s.buffer with
  | [] => ReadOutcome.crashed
  | c :: rest => ReadOutcome.ok c ⟨rest, s.lines⟩

/-! ## Instruction pointer (src/program/ip.rs, src/program/ip/instruction.rs) -/

structure Ip where
  id : Value
  position : Point
  delta : Delta
  storage : Point
  stks : StackStack
  strMode : Bool
  saw_space : Bool
deriving DecidableEq, Repr

/-- `Ip::new`: id 0, position (-1, 0), delta (1, 0), storage (0, 0), a
single empty stack, string mode off.  (`stks` models the field `stacks`
and `strMode` the field `string`; both source names are unavailable
here.) -/
def Ip.new : Ip :=
  { id := 0
    position := ⟨-1, 0⟩
    delta := ⟨1, 0⟩
    storage := ⟨0, 0⟩
    stks := StackStack.new
    strMode := false
    saw_space := false }

/-- `Ip::step`: `position = space.new_position(position, delta)`. -/
def Ip.step (ip : Ip) (space : Space) : Ip :=
  { ip with position := space.new_position ip.position ip.delta }

/-- `Ip::reflect`: reverse the delta. -/
def Ip.reflect (ip : Ip) : Ip := { ip with delta := ip.delta.reverse }

/-- `Ip::jump` (the `j` instruction): pop `n`, save the delta, scale the
delta by `n`, take one step, restore the delta. -/
def Ip.jump (ip : Ip) (space : Space) : Ip :=
  let r := ip.stks.pop
  let ip1 := { ip with stks := r.2 }
  let saved := ip1.delta
  let ip2 := { ip1 with delta := ip1.delta.mulW r.1 }
  let ip3 := ip2.step space
  { ip3 with delta := saved }

/-- The clone queued by `Ip::split` (the `t` instruction): a copy of the
executing IP with reversed delta. -/
def Ip.splitClone (ip : Ip) : Ip := ip.reflect

/-- `Ip::input_char` (the `~` instruction): on `Some(c)` push the
character code, on `None` reflect; a panic inside `read_char` propagates
(`none`: the engine never regains control and no reflection happens). -/
def Ip.input_char (ip : Ip) (inp : InputState) : Option (Ip × InputState) :=
  match inp.read_char with
  | ReadOutcome.ok c s2 => some ({ ip with stks := ip.stks.push (c : Int) }, s2)
  | ReadOutcome.fail s2 => some (ip.reflect, s2)
  | ReadOutcome.crashed => none

/-! ## Engine scheduling (src/program.rs) -/

/-- `ExecResult`: the control buffer entries queued during a tick. -/
inductive ExecResult where
  | AddIp (ip : Ip)
  | DeleteIp
  | Terminate (v : Value)

/-- The `IpData` record: IP list, cursor, exit status, id counter. -/
structure IpData where
  ips : List Ip
  current : Nat
  exit : Option Value
  new_id : Value

/-- `Program::init`: one fresh IP, cursor 0, no exit value, next id 1. -/
def Program.initData : IpData :=
  { ips := [Ip.new], current := 0, exit := none, new_id := 1 }

/-- `Context::commit_changes`: drain the control buffer (inserting each
added IP at `current` with a fresh id, removing the IP at `current` on
delete, recording the exit value on terminate), then either exit with 0 if
no IPs remain, or advance `current` by `len + offset` modulo the new
length, where `offset` starts at 1.  `none` models the modulo-by-zero
panic when the list empties while an exit value is already set (no
instruction sequence produces that buffer).  The index arithmetic matches
the source whenever `len + offset ≥ 0`, which holds for every buffer a
tick can queue. -/
def commit_changes (d : IpData) (buf : List ExecResult) : Option IpData :=
  let r := buf.foldl
    (fun (a : IpData × Int) res =>
      match res with
      | ExecResult.AddIp ip =>
        ({ a.1 with
            ips := a.1.ips.insertIdx a.1.current { ip with id := a.1.new_id }
            new_id := a.1.new_id + 1 }, a.2 + 1)
      | ExecResult.DeleteIp =>
        ({ a.1 with ips := a.1.ips.eraseIdx a.1.current }, a.2 - 1)
      | ExecResult.Terminate v =>
        ({ a.1 with exit := some v }, a.2))
    (d, 1)
  let d2 := r.1
  if d2.ips.isEmpty then
    if d2.exit = none then some { d2 with exit := some 0 } else none
  else
    some { d2 with
      current :=
        (((d2.current : Int) + ((d2.ips.length : Int) + r.2)) %
          (d2.ips.length : Int)).toNat }

/-! ## Auxiliary lemmas -/

/-- `wrap32` is the identity on values already in the `i32` range. -/
theorem wrap32_id (z : Int) (h1 : -2 ^ 31 ≤ z) (h2 : z < 2 ^ 31) : wrap32 z = z := by
  unfold wrap32
  rw [Int.emod_eq_of_lt (by omega) (by omega)]
  omega

/-! ## Claims -/

/-- C1: the claim states that a never-written point always reads as 32
even when other points hold non-space values.  The code violates this:
`FungeTree::get` indexes with only the low address bits, so on the
depth-0 tree obtained after writing 65 to the origin, the never-written
point (16, 0) aliases the origin cell and reads 65, not 32. -/
theorem c1_get_unwritten_aliases :
    (Space.new.set ⟨0, 0⟩ 65).get ⟨16, 0⟩ = 65 := by decide

/-- C2: the claim states that `create_stack(n, storage)` with
`n > |old_top|` moves all old values onto the new top stack above
`n - |old_top|` zeros.  The code violates this: `top.split_off(len)`
splits off an empty suffix, so on the stack stack holding the single
stack [7], `create_stack(2, (0,0))` leaves 7 on the old stack (below the
pushed storage offset cells) and the new top stack is just [0]; the claim
requires new top [0, 7] (bottom to top) and old stack [0, 0]. -/
theorem c2_create_stack_eval :
    (StackStack.create_stack ⟨[[7]]⟩ 2 ⟨0, 0⟩).sts = [[0], [0, 0, 7]] := by decide

/-- C3: the claim states `nth(k)` returns the k-th value from the top
(k = 1 topmost, k = L bottommost) and 0 only out of range, never
failing.  The code violates this: the guard `n >= len` (instead of
`n > len`) makes `nth(1)` on the one-element top stack [5] return 0
instead of 5, and `nth(0)` on a non-empty top stack indexes `top[len]`
and panics (`none` in the model). -/
theorem c3_nth_eval :
    StackStack.nth ⟨[[5]]⟩ 1 = some 0 ∧ StackStack.nth ⟨[[5]]⟩ 0 = none := by decide

/-- C4: the claim states that `~` on exhausted input reflects the IP's
delta with no panic.  The code violates this: at end of input `read_line`
returns `Ok(0)` leaving the buffer empty, and
`input_buffer.chars().nth(0).unwrap()` panics, so `input_char` never
reflects (the panic propagates past the engine, `none` in the model). -/
theorem c4_input_char_eof_panics :
    InputState.read_char ⟨[], []⟩ = ReadOutcome.crashed ∧
    Ip.input_char Ip.new ⟨[], []⟩ = none := by decide

/-- C5: the claim states `set(p, v)` makes an immediately following
`get(p)` return `v` for every point and value.  The code violates this
for `v = 32`: writing 32 at (16, 0), outside the region covered by the
depth-0 tree, is a no-op, and `get (16, 0)` then aliases the origin cell
(which holds 65), so the read returns 65 instead of the written 32. -/
theorem c5_set_get_eval :
    ((Space.new.set ⟨0, 0⟩ 65).set ⟨16, 0⟩ 32).get ⟨16, 0⟩ = 65 := by decide

/-- C9: the `j` instruction pops `n`, moves the IP by a single wrapping
step with the delta scaled by `n` (`new_position(position, delta * n)`),
and leaves the delta it had before the instruction, the remaining stack
being the popped stack; id, storage and string mode are untouched. -/
theorem c9_jump_semantics (space : Space) (ip : Ip) :
    (ip.jump space).delta = ip.delta ∧
    (ip.jump space).position =
      space.new_position ip.position (ip.delta.mulW (ip.stks.pop).1) ∧
    (ip.jump space).stks = (ip.stks.pop).2 ∧
    (ip.jump space).storage = ip.storage ∧
    (ip.jump space).id = ip.id ∧
    (ip.jump space).strMode = ip.strMode :=
  ⟨rfl, rfl, rfl, rfl, rfl, rfl⟩

/-- C10: a freshly created program has exactly one IP, with id 0, delta
(1, 0), storage offset (0, 0), a single empty stack, string mode off and
position (-1, 0); and since a tick steps before scanning, for any loaded
source whose bounding box starts at x = 0 (so `min_x = 0 ≤ max_x`, and
`max_y ≥ 0` as rows are loaded from y = 0 downward) the first cell the IP
examines is the origin: the step from (-1, 0) by (1, 0) lands on (0, 0). -/
theorem c10_fresh_program (s : Space)
    (h1 : s.bounds.min_x = 0) (h2 : s.bounds.min_x ≤ s.bounds.max_x)
    (h3 : 0 ≤ s.bounds.max_y)
    (h4 : s.bounds.max_x < 2 ^ 31) (h5 : s.bounds.max_y < 2 ^ 31) :
    Program.initData.ips = [Ip.new] ∧
    Ip.new.id = 0 ∧
    Ip.new.delta = ⟨1, 0⟩ ∧
    Ip.new.storage = ⟨0, 0⟩ ∧
    Ip.new.stks = ⟨[[]]⟩ ∧
    Ip.new.strMode = false ∧
    Ip.new.position = ⟨-1, 0⟩ ∧
    (Ip.new.step s).position = ⟨0, 0⟩ := by
  refine ⟨rfl, rfl, rfl, rfl, rfl, rfl, rfl, ?_⟩
  have hx : wrap32 (s.bounds.max_x - 1) = s.bounds.max_x - 1 :=
    wrap32_id _ (by omega) (by omega)
  have hy : wrap32 (s.bounds.max_y - 0) = s.bounds.max_y - 0 :=
    wrap32_id _ (by omega) (by omega)
  have hcx : ¬ (s.bounds.max_x - 1 < -1) := by omega
  have hcy : ¬ (s.bounds.max_y - 0 < 0) := by omega
  simp only [Ip.step, Ip.new, Space.new_position, hx, hy]
  norm_num [hcx, hcy, Point.addD, wrap32_id]
  intro h6
  exact absurd h6 (by omega)

/-- C10 witness: the space holding a single non-space cell at the origin
has bounding box [0,0] x [0,0], satisfying all hypotheses. -/
theorem c10_fresh_program_witness :
    Program.initData.ips = [Ip.new] ∧
    Ip.new.id = 0 ∧
    Ip.new.delta = ⟨1, 0⟩ ∧
    Ip.new.storage = ⟨0, 0⟩ ∧
    Ip.new.stks = ⟨[[]]⟩ ∧
    Ip.new.strMode = false ∧
    Ip.new.position = ⟨-1, 0⟩ ∧
    (Ip.new.step (Space.new.set ⟨0, 0⟩ 65)).position = ⟨0, 0⟩ :=
  c10_fresh_program (Space.new.set ⟨0, 0⟩ 65) (by decide) (by decide) (by decide)
    (by decide) (by decide)

/-- C8: every stack-stack operation keeps at least one stack present
(`delete_stack` and `transfer_elements` under their more-than-one-stack
precondition, where they also do not panic), and `pop` on an empty top
stack returns 0 without error.  `nth` never modifies the stack stack, so
it preserves the invariant trivially. -/
theorem c8_stack_invariants (s : StackStack) (h : s.sts ≠ [])
    (v : Value) (cs : List Nat) (n : Int) (pt : Point) :
    (s.push v).sts ≠ [] ∧
    (s.pop).2.sts ≠ [] ∧
    (s.push_string cs).2.sts ≠ [] ∧
    (s.pop_string).2.sts ≠ [] ∧
    s.clear.sts ≠ [] ∧
    (s.create_stack n pt).sts ≠ [] ∧
    (s.single = false →
      ∃ pr, s.delete_stack n = some pr ∧ pr.2.sts ≠ []) ∧
    (s.single = false →
      ∃ t2, s.transfer_elements n = some t2 ∧ t2.sts ≠ []) ∧
    (s.top = [] → (s.pop).1 = 0 ∧ (s.pop).2 = s) := by
  obtain ⟨ss⟩ := s
  refine ⟨by simp [StackStack.push, StackStack.setTop], ?_,
    by simp [StackStack.push_string, StackStack.setTop],
    by simp [StackStack.pop_string, StackStack.setTop],
    by simp [StackStack.clear, StackStack.setTop],
    by simp [StackStack.create_stack], ?_, ?_, ?_⟩
  · cases h1 : StackStack.top ⟨ss⟩ with
    | nil => simpa [StackStack.pop, h1] using h
    | cons a r => simp [StackStack.pop, h1, StackStack.setTop]
  · intro h2
    cases ss with
    | nil => exact absurd rfl h
    | cons a rest =>
      simp only [StackStack.delete_stack, h2, Bool.false_eq_true, if_false]
      exact ⟨_, rfl, by simp⟩
  · intro h2
    cases ss with
    | nil => exact absurd rfl h
    | cons a rest =>
      simp only [StackStack.transfer_elements, h2, Bool.false_eq_true, if_false]
      by_cases h3 : 0 < n
      · simp only [h3, if_true]
        exact ⟨_, rfl, by simp⟩
      · by_cases h4 : n < 0
        · simp only [h3, h4, if_false, if_true]
          exact ⟨_, rfl, by simp⟩
        · simp only [h3, h4, if_false]
          exact ⟨_, rfl, by simp⟩
  · intro h1
    simp [StackStack.pop, h1]

/-- C8 witness: a stack stack with an empty top stack above the stack
[3], so that both preconditioned operations apply and the empty-top pop
is exercised. -/
theorem c8_stack_invariants_witness :
    let s : StackStack := ⟨[[], [3]]⟩
    (s.push 1).sts ≠ [] ∧
    (s.pop).2.sts ≠ [] ∧
    (s.push_string [65]).2.sts ≠ [] ∧
    (s.pop_string).2.sts ≠ [] ∧
    s.clear.sts ≠ [] ∧
    (s.create_stack 1 ⟨0, 0⟩).sts ≠ [] ∧
    (s.single = false →
      ∃ pr, s.delete_stack 1 = some pr ∧ pr.2.sts ≠ []) ∧
    (s.single = false →
      ∃ t2, s.transfer_elements 1 = some t2 ∧ t2.sts ≠ []) ∧
    (s.top = [] → (s.pop).1 = 0 ∧ (s.pop).2 = s) :=
  c8_stack_invariants ⟨[[], [3]]⟩ (by decide) 1 [65] 1 ⟨0, 0⟩

/-- Cursor arithmetic of `commit_changes` after a lone add: with the
post-insert length `L + 1` and offset 2, the source's
`current += len + offset; current %= len` equals `(current + 2)` modulo
`L + 1`. -/
theorem commit_cursor (c L : Nat) :
    (((c : Int) + (((L + 1 : Nat) : Int) + 2)) % ((L + 1 : Nat) : Int)).toNat =
      (c + 2) % (L + 1) := by
  have h1 : ((c : Int) + (((L + 1 : Nat) : Int) + 2)) =
      ((c + 2 : Nat) : Int) + ((L + 1 : Nat) : Int) * 1 := by push_cast; ring
  rw [h1, Int.add_mul_emod_self_left, ← Int.natCast_mod, Int.toNat_natCast]

/-- Value of `commit_changes` on the buffer queued by a `t` instruction:
a single added IP.  The clone receives the fresh id and is inserted at
index `current`; the offset ends at 2, so the cursor becomes
`(current + 2) % (len + 1)`. -/
theorem commit_add_eq (d : IpData) (ip0 : Ip) (h : d.current < d.ips.length) :
    commit_changes d [ExecResult.AddIp ip0] =
      some { ips := d.ips.insertIdx d.current { ip0 with id := d.new_id }
             current := (d.current + 2) % (d.ips.length + 1)
             exit := d.exit
             new_id := d.new_id + 1 } := by
  have hlen2 : (d.ips.insertIdx d.current { ip0 with id := d.new_id }).length =
      d.ips.length + 1 := List.length_insertIdx _ _ (Nat.le_of_lt h)
  have hne : d.ips.insertIdx d.current { ip0 with id := d.new_id } ≠ [] := by
    intro he
    rw [he] at hlen2
    simp at hlen2
  unfold commit_changes
  simp only [List.foldl_cons, List.foldl_nil]
  rw [if_neg (by simp [List.isEmpty_iff, hne])]
  have h2 : ((1 : Int) + 1) = 2 := by norm_num
  simp only [h2, Option.some.injEq, IpData.mk.injEq, hlen2, and_true, true_and]
  exact commit_cursor d.current d.ips.length

/-- C7: executing `t` queues a clone of the current IP with reversed
delta; committing that buffer inserts the clone (carrying the fresh id)
immediately before the creator in the IP list and advances the cursor two
slots, so that under the round-robin advance the clone is not scheduled
during the next `len - 1` ticks — precisely while the other previously
existing IPs finish the round in which the clone was created — and is
scheduled immediately afterwards, first in the following round. -/
theorem c7_split_schedule (d : IpData) (h : d.current < d.ips.length) :
    ∃ d2, commit_changes d
        [ExecResult.AddIp (Ip.splitClone (d.ips.getD d.current Ip.new))] = some d2 ∧
      (Ip.splitClone (d.ips.getD d.current Ip.new)).delta =
        (d.ips.getD d.current Ip.new).delta.reverse ∧
      d2.ips = d.ips.insertIdx d.current
        { Ip.splitClone (d.ips.getD d.current Ip.new) with id := d.new_id } ∧
      d2.ips[d.current]? =
        some { Ip.splitClone (d.ips.getD d.current Ip.new) with id := d.new_id } ∧
      d2.ips[d.current + 1]? = some (d.ips.getD d.current Ip.new) ∧
      d2.current = (d.current + 2) % (d.ips.length + 1) ∧
      (∀ k, k < d.ips.length - 1 →
        (d2.current + k) % d2.ips.length ≠ d.current) ∧
      (d2.current + (d.ips.length - 1)) % d2.ips.length = d.current := by
  have hlen2 : (d.ips.insertIdx d.current
      { Ip.splitClone (d.ips.getD d.current Ip.new) with id := d.new_id }).length =
      d.ips.length + 1 := List.length_insertIdx _ _ (Nat.le_of_lt h)
  refine ⟨_, commit_add_eq d (Ip.splitClone (d.ips.getD d.current Ip.new)) h,
    rfl, rfl, ?_, ?_, rfl, ?_, ?_⟩
  · have hcl : d.current < (d.ips.insertIdx d.current
        { Ip.splitClone (d.ips.getD d.current Ip.new) with id := d.new_id }).length := by
      omega
    show (d.ips.insertIdx d.current
      { Ip.splitClone (d.ips.getD d.current Ip.new) with id := d.new_id })[d.current]? =
      some { Ip.splitClone (d.ips.getD d.current Ip.new) with id := d.new_id }
    rw [List.getElem?_eq_getElem hcl,
      List.getElem_insertIdx_self d.ips _ d.current (Nat.le_of_lt h)]
  · have hcl : d.current + 1 < (d.ips.insertIdx d.current
        { Ip.splitClone (d.ips.getD d.current Ip.new) with id := d.new_id }).length := by
      omega
    show (d.ips.insertIdx d.current
      { Ip.splitClone (d.ips.getD d.current Ip.new) with id := d.new_id })[d.current + 1]? =
      some (d.ips.getD d.current Ip.new)
    rw [List.getElem?_eq_getElem hcl]
    have h0 : d.current + 0 < d.ips.length := by omega
    have h1 := List.getElem_insertIdx_add_succ d.ips
      { Ip.splitClone (d.ips.getD d.current Ip.new) with id := d.new_id } d.current 0 h0
    simp only [Nat.add_zero] at h1 h0
    rw [h1, List.getD_eq_getElem d.ips Ip.new h0]
  · intro k hk
    show ((d.current + 2) % (d.ips.length + 1) + k) % (d.ips.insertIdx d.current
      { Ip.splitClone (d.ips.getD d.current Ip.new) with id := d.new_id }).length ≠
      d.current
    rw [hlen2, Nat.mod_add_mod]
    rcases Nat.lt_or_ge (d.current + 2 + k) (d.ips.length + 1) with hlt | hge
    · rw [Nat.mod_eq_of_lt hlt]
      omega
    · rw [Nat.mod_eq_sub_mod hge, Nat.mod_eq_of_lt (by omega)]
      omega
  · show ((d.current + 2) % (d.ips.length + 1) + (d.ips.length - 1)) %
      (d.ips.insertIdx d.current
        { Ip.splitClone (d.ips.getD d.current Ip.new) with id := d.new_id }).length =
      d.current
    rw [hlen2, Nat.mod_add_mod]
    rw [show d.current + 2 + (d.ips.length - 1) = d.current + (d.ips.length + 1) from
      by omega, Nat.add_mod_right]
    exact Nat.mod_eq_of_lt (by omega)

/-- C7 witness: the freshly initialised program (one IP, cursor 0)
executing `t`. -/
theorem c7_split_schedule_witness :
    ∃ d2, commit_changes Program.initData
        [ExecResult.AddIp (Ip.splitClone (Program.initData.ips.getD
          Program.initData.current Ip.new))] = some d2 ∧
      (Ip.splitClone (Program.initData.ips.getD Program.initData.current Ip.new)).delta =
        (Program.initData.ips.getD Program.initData.current Ip.new).delta.reverse ∧
      d2.ips = Program.initData.ips.insertIdx Program.initData.current
        { Ip.splitClone (Program.initData.ips.getD Program.initData.current Ip.new) with
          id := Program.initData.new_id } ∧
      d2.ips[Program.initData.current]? =
        some { Ip.splitClone (Program.initData.ips.getD Program.initData.current Ip.new) with
          id := Program.initData.new_id } ∧
      d2.ips[Program.initData.current + 1]? =
        some (Program.initData.ips.getD Program.initData.current Ip.new) ∧
      d2.current = (Program.initData.current + 2) % (Program.initData.ips.length + 1) ∧
      (∀ k, k < Program.initData.ips.length - 1 →
        (d2.current + k) % d2.ips.length ≠ Program.initData.current) ∧
      (d2.current + (Program.initData.ips.length - 1)) % d2.ips.length =
        Program.initData.current :=
  c7_split_schedule Program.initData (by decide)

/-- Core wrap estimate for one axis: if `n` is at most the step count the
source computes for that axis (and nonnegative), then `xx - dd * n` stays
in the closed interval `[mn, mx]` containing `xx`, and `dd * n` itself is
bounded by the distances to the interval ends. -/
theorem wrapStep (mn mx xx dd n : Int) (hb1 : mn ≤ xx) (hb2 : xx ≤ mx)
    (hn0 : 0 ≤ n)
    (hpos : 0 < dd → n ≤ Int.tdiv (xx - mn) dd)
    (hneg : dd < 0 → n ≤ Int.tdiv (xx - mx) dd) :
    mn ≤ xx - dd * n ∧ xx - dd * n ≤ mx ∧ xx - mx ≤ dd * n ∧ dd * n ≤ xx - mn := by
  rcases lt_trichotomy dd 0 with hd | hd | hd
  · have hq := hneg hd
    have heq : Int.tdiv (xx - mx) dd = Int.tdiv (-(xx - mx)) (-dd) := by
      rw [Int.neg_tdiv, Int.tdiv_neg, neg_neg]
    have hb : Int.tdiv (-(xx - mx)) (-dd) * (-dd) ≤ -(xx - mx) := by
      rw [Int.tdiv_eq_ediv (by omega) (by omega)]
      exact Int.ediv_mul_le _ (by omega)
    have h1 : xx - mx ≤ dd * Int.tdiv (xx - mx) dd := by
      rw [heq]
      have e : dd * Int.tdiv (-(xx - mx)) (-dd) =
          -(Int.tdiv (-(xx - mx)) (-dd) * (-dd)) := by ring
      rw [e]
      linarith
    have h2 : dd * n ≤ 0 := mul_nonpos_iff.mpr (Or.inr ⟨le_of_lt hd, hn0⟩)
    have h3 : dd * Int.tdiv (xx - mx) dd ≤ dd * n :=
      mul_le_mul_of_nonpos_left hq (le_of_lt hd)
    exact ⟨by linarith, by linarith, by linarith, by linarith⟩
  · subst hd
    simp only [zero_mul]
    omega
  · have hq := hpos hd
    have hb : Int.tdiv (xx - mn) dd * dd ≤ xx - mn := by
      rw [Int.tdiv_eq_ediv (by omega) (by omega)]
      exact Int.ediv_mul_le _ (by omega)
    have h1 : dd * Int.tdiv (xx - mn) dd ≤ xx - mn := by
      have e : dd * Int.tdiv (xx - mn) dd = Int.tdiv (xx - mn) dd * dd := by ring
      rw [e]
      exact hb
    have h2 : 0 ≤ dd * n := mul_nonneg (le_of_lt hd) hn0
    have h3 : dd * n ≤ dd * Int.tdiv (xx - mn) dd :=
      mul_le_mul_of_nonneg_left hq (le_of_lt hd)
    exact ⟨by linarith, by linarith, by linarith, by linarith⟩

/-- The per-axis step count computed for a nonnegative delta component is
nonnegative. -/
theorem nxNonnegPos (mn xx dd : Int) (h : mn ≤ xx) (hdd : 0 ≤ dd) :
    0 ≤ (if dd = 0 then 2 ^ 31 - 1 else Int.tdiv (xx - mn) dd) := by
  by_cases h0 : dd = 0
  · rw [if_pos h0]
    norm_num
  · rw [if_neg h0]
    exact Int.tdiv_nonneg (by omega) (by omega)

/-- The per-axis step count computed for a negative delta component is
nonnegative. -/
theorem nxNonnegNeg (mx xx dd : Int) (h : xx ≤ mx) (hdd : dd < 0) :
    0 ≤ (if dd = 0 then 2 ^ 31 - 1 else Int.tdiv (xx - mx) dd) := by
  rw [if_neg (by omega)]
  have e : Int.tdiv (xx - mx) dd = Int.tdiv (-(xx - mx)) (-dd) := by
    rw [Int.neg_tdiv, Int.tdiv_neg, neg_neg]
  rw [e]
  exact Int.tdiv_nonneg (by omega) (by omega)

/-- Wrap-free evaluation of one coordinate of the wrap-branch result,
with the containment bounds, under the no-overflow ranges. -/
theorem axisResult (mn mx xx dd n : Int) (hb1 : mn ≤ xx) (hb2 : xx ≤ mx)
    (hr1 : -2 ^ 29 ≤ mn) (hr2 : mx ≤ 2 ^ 29) (hn0 : 0 ≤ n)
    (hpos : 0 < dd → n ≤ Int.tdiv (xx - mn) dd)
    (hneg : dd < 0 → n ≤ Int.tdiv (xx - mx) dd) :
    wrap32 (xx - wrap32 (dd * n)) = xx - dd * n ∧
    mn ≤ xx - dd * n ∧ xx - dd * n ≤ mx := by
  obtain ⟨e1, e2, e3, e4⟩ := wrapStep mn mx xx dd n hb1 hb2 hn0 hpos hneg
  have w1 : wrap32 (dd * n) = dd * n := wrap32_id _ (by omega) (by omega)
  rw [w1]
  exact ⟨wrap32_id _ (by omega) (by omega), e1, e2⟩

/-- C6 (amended): for every space and every point p inside the closed
bounding box, with box bounds and delta components at most `2^29` in
magnitude (so that the `i32` arithmetic of `new_position` cannot wrap):
if `p + d` lies within the bounding box then `new_position(p, d)` equals
`p + d`; otherwise, along each axis on which `p + d` leaves the bounding
box (the axis that triggered the wrap), the returned coordinate lies
inside the closed bounding box interval. -/
theorem c6_new_position (s : Space) (p : Point) (d : Delta)
    (hb1 : s.bounds.min_x ≤ s.bounds.max_x) (hb2 : s.bounds.min_y ≤ s.bounds.max_y)
    (hr1 : -2 ^ 29 ≤ s.bounds.min_x) (hr2 : s.bounds.max_x ≤ 2 ^ 29)
    (hr3 : -2 ^ 29 ≤ s.bounds.min_y) (hr4 : s.bounds.max_y ≤ 2 ^ 29)
    (hd1 : -2 ^ 29 ≤ d.dx) (hd2 : d.dx ≤ 2 ^ 29)
    (hd3 : -2 ^ 29 ≤ d.dy) (hd4 : d.dy ≤ 2 ^ 29)
    (hp1 : s.bounds.min_x ≤ p.x) (hp2 : p.x ≤ s.bounds.max_x)
    (hp3 : s.bounds.min_y ≤ p.y) (hp4 : p.y ≤ s.bounds.max_y) :
    ((s.bounds.min_x ≤ p.x + d.dx ∧ p.x + d.dx ≤ s.bounds.max_x) ∧
     (s.bounds.min_y ≤ p.y + d.dy ∧ p.y + d.dy ≤ s.bounds.max_y) →
       s.new_position p d = p.addD d) ∧
    (¬(s.bounds.min_x ≤ p.x + d.dx ∧ p.x + d.dx ≤ s.bounds.max_x) →
       s.bounds.min_x ≤ (s.new_position p d).x ∧
       (s.new_position p d).x ≤ s.bounds.max_x) ∧
    (¬(s.bounds.min_y ≤ p.y + d.dy ∧ p.y + d.dy ≤ s.bounds.max_y) →
       s.bounds.min_y ≤ (s.new_position p d).y ∧
       (s.new_position p d).y ≤ s.bounds.max_y) := by
  obtain ⟨tr, b⟩ := s
  obtain ⟨mnx, mny, mxx, mxy, nex, ney⟩ := b
  obtain ⟨px, py⟩ := p
  obtain ⟨dx, dy⟩ := d
  dsimp only at hb1 hb2 hr1 hr2 hr3 hr4 hd1 hd2 hd3 hd4 hp1 hp2 hp3 hp4 ⊢
  have w1 : wrap32 (mxx - dx) = mxx - dx := wrap32_id _ (by omega) (by omega)
  have w2 : wrap32 (mnx - dx) = mnx - dx := wrap32_id _ (by omega) (by omega)
  have w3 : wrap32 (px - mnx) = px - mnx := wrap32_id _ (by omega) (by omega)
  have w4 : wrap32 (px - mxx) = px - mxx := wrap32_id _ (by omega) (by omega)
  have w5 : wrap32 (mxy - dy) = mxy - dy := wrap32_id _ (by omega) (by omega)
  have w6 : wrap32 (mny - dy) = mny - dy := wrap32_id _ (by omega) (by omega)
  have w7 : wrap32 (py - mny) = py - mny := wrap32_id _ (by omega) (by omega)
  have w8 : wrap32 (py - mxy) = py - mxy := wrap32_id _ (by omega) (by omega)
  simp only [Space.new_position, Point.addD, Point.subD, Delta.mulW,
    w1, w2, w3, w4, w5, w6, w7, w8]
  rcases le_or_lt 0 dx with hdx | hdx
  · rcases le_or_lt 0 dy with hdy | hdy
    · simp only [if_pos hdx, if_pos hdy]
      by_cases hW : (mxx - dx < px) ∨ (mxy - dy < py)
      · rw [if_pos (show (decide (mxx - dx < px) || decide (mxy - dy < py)) = true by
          simp only [Bool.or_eq_true, decide_eq_true_eq]; exact hW)]
        set nxE := (if dx = 0 then (2 ^ 31 - 1 : Int) else (px - mnx).tdiv dx) with hnxE
        set nyE := (if dy = 0 then (2 ^ 31 - 1 : Int) else (py - mny).tdiv dy) with hnyE
        have hnx0 : 0 ≤ nxE := by rw [hnxE]; exact nxNonnegPos mnx px dx hp1 hdx
        have hny0 : 0 ≤ nyE := by rw [hnyE]; exact nxNonnegPos mny py dy hp3 hdy
        have hn0 : 0 ≤ min nxE nyE := le_min hnx0 hny0
        have hlex : 0 < dx → min nxE nyE ≤ (px - mnx).tdiv dx := by
          intro h0
          have he : nxE = (px - mnx).tdiv dx := by rw [hnxE, if_neg (by omega)]
          rw [← he]
          exact min_le_left _ _
        have hley : 0 < dy → min nxE nyE ≤ (py - mny).tdiv dy := by
          intro h0
          have he : nyE = (py - mny).tdiv dy := by rw [hnyE, if_neg (by omega)]
          rw [← he]
          exact min_le_right _ _
        obtain ⟨wx, bx1, bx2⟩ := axisResult mnx mxx px dx (min nxE nyE)
          hp1 hp2 hr1 hr2 hn0 hlex (fun h0 => absurd h0 (by omega))
        obtain ⟨wy, by1, by2⟩ := axisResult mny mxy py dy (min nxE nyE)
          hp3 hp4 hr3 hr4 hn0 hley (fun h0 => absurd h0 (by omega))
        refine ⟨?_, ?_, ?_⟩
        · intro hA
          rcases hW with h | h
          · exact absurd hA.1.2 (by omega)
          · exact absurd hA.2.2 (by omega)
        · intro hB
          rw [wx]
          exact ⟨bx1, bx2⟩
        · intro hC
          rw [wy]
          exact ⟨by1, by2⟩
      · push_neg at hW
        rw [if_neg (show ¬ ((decide (mxx - dx < px) || decide (mxy - dy < py)) = true) by
          simp only [Bool.or_eq_true, decide_eq_true_eq]; push_neg; exact hW)]
        refine ⟨fun _ => rfl, ?_, ?_⟩
        · intro hB
          exact absurd ⟨by omega, by omega⟩ hB
        · intro hC
          exact absurd ⟨by omega, by omega⟩ hC
    · have hdy' : ¬ (0 ≤ dy) := by omega
      simp only [if_pos hdx, if_neg hdy']
      by_cases hW : (mxx - dx < px) ∨ (py < mny - dy)
      · rw [if_pos (show (decide (mxx - dx < px) || decide (py < mny - dy)) = true by
          simp only [Bool.or_eq_true, decide_eq_true_eq]; exact hW)]
        set nxE := (if dx = 0 then (2 ^ 31 - 1 : Int) else (px - mnx).tdiv dx) with hnxE
        set nyE := (if dy = 0 then (2 ^ 31 - 1 : Int) else (py - mxy).tdiv dy) with hnyE
        have hnx0 : 0 ≤ nxE := by rw [hnxE]; exact nxNonnegPos mnx px dx hp1 hdx
        have hny0 : 0 ≤ nyE := by rw [hnyE]; exact nxNonnegNeg mxy py dy hp4 hdy
        have hn0 : 0 ≤ min nxE nyE := le_min hnx0 hny0
        have hlex : 0 < dx → min nxE nyE ≤ (px - mnx).tdiv dx := by
          intro h0
          have he : nxE = (px - mnx).tdiv dx := by rw [hnxE, if_neg (by omega)]
          rw [← he]
          exact min_le_left _ _
        have hley : dy < 0 → min nxE nyE ≤ (py - mxy).tdiv dy := by
          intro h0
          have he : nyE = (py - mxy).tdiv dy := by rw [hnyE, if_neg (by omega)]
          rw [← he]
          exact min_le_right _ _
        obtain ⟨wx, bx1, bx2⟩ := axisResult mnx mxx px dx (min nxE nyE)
          hp1 hp2 hr1 hr2 hn0 hlex (fun h0 => absurd h0 (by omega))
        obtain ⟨wy, by1, by2⟩ := axisResult mny mxy py dy (min nxE nyE)
          hp3 hp4 hr3 hr4 hn0 (fun h0 => absurd h0 (by omega)) hley
        refine ⟨?_, ?_, ?_⟩
        · intro hA
          rcases hW with h | h
          · exact absurd hA.1.2 (by omega)
          · exact absurd hA.2.1 (by omega)
        · intro hB
          rw [wx]
          exact ⟨bx1, bx2⟩
        · intro hC
          rw [wy]
          exact ⟨by1, by2⟩
      · push_neg at hW
        rw [if_neg (show ¬ ((decide (mxx - dx < px) || decide (py < mny - dy)) = true) by
          simp only [Bool.or_eq_true, decide_eq_true_eq]; push_neg; exact hW)]
        refine ⟨fun _ => rfl, ?_, ?_⟩
        · intro hB
          exact absurd ⟨by omega, by omega⟩ hB
        · intro hC
          exact absurd ⟨by omega, by omega⟩ hC
  · have hdx' : ¬ (0 ≤ dx) := by omega
    rcases le_or_lt 0 dy with hdy | hdy
    · simp only [if_neg hdx', if_pos hdy]
      by_cases hW : (px < mnx - dx) ∨ (mxy - dy < py)
      · rw [if_pos (show (decide (px < mnx - dx) || decide (mxy - dy < py)) = true by
          simp only [Bool.or_eq_true, decide_eq_true_eq]; exact hW)]
        set nxE := (if dx = 0 then (2 ^ 31 - 1 : Int) else (px - mxx).tdiv dx) with hnxE
        set nyE := (if dy = 0 then (2 ^ 31 - 1 : Int) else (py - mny).tdiv dy) with hnyE
        have hnx0 : 0 ≤ nxE := by rw [hnxE]; exact nxNonnegNeg mxx px dx hp2 hdx
        have hny0 : 0 ≤ nyE := by rw [hnyE]; exact nxNonnegPos mny py dy hp3 hdy
        have hn0 : 0 ≤ min nxE nyE := le_min hnx0 hny0
        have hlex : dx < 0 → min nxE nyE ≤ (px - mxx).tdiv dx := by
          intro h0
          have he : nxE = (px - mxx).tdiv dx := by rw [hnxE, if_neg (by omega)]
          rw [← he]
          exact min_le_left _ _
        have hley : 0 < dy → min nxE nyE ≤ (py - mny).tdiv dy := by
          intro h0
          have he : nyE = (py - mny).tdiv dy := by rw [hnyE, if_neg (by omega)]
          rw [← he]
          exact min_le_right _ _
        obtain ⟨wx, bx1, bx2⟩ := axisResult mnx mxx px dx (min nxE nyE)
          hp1 hp2 hr1 hr2 hn0 (fun h0 => absurd h0 (by omega)) hlex
        obtain ⟨wy, by1, by2⟩ := axisResult mny mxy py dy (min nxE nyE)
          hp3 hp4 hr3 hr4 hn0 hley (fun h0 => absurd h0 (by omega))
        refine ⟨?_, ?_, ?_⟩
        · intro hA
          rcases hW with h | h
          · exact absurd hA.1.1 (by omega)
          · exact absurd hA.2.2 (by omega)
        · intro hB
          rw [wx]
          exact ⟨bx1, bx2⟩
        · intro hC
          rw [wy]
          exact ⟨by1, by2⟩
      · push_neg at hW
        rw [if_neg (show ¬ ((decide (px < mnx - dx) || decide (mxy - dy < py)) = true) by
          simp only [Bool.or_eq_true, decide_eq_true_eq]; push_neg; exact hW)]
        refine ⟨fun _ => rfl, ?_, ?_⟩
        · intro hB
          exact absurd ⟨by omega, by omega⟩ hB
        · intro hC
          exact absurd ⟨by omega, by omega⟩ hC
    · have hdy' : ¬ (0 ≤ dy) := by omega
      simp only [if_neg hdx', if_neg hdy']
      by_cases hW : (px < mnx - dx) ∨ (py < mny - dy)
      · rw [if_pos (show (decide (px < mnx - dx) || decide (py < mny - dy)) = true by
          simp only [Bool.or_eq_true, decide_eq_true_eq]; exact hW)]
        set nxE := (if dx = 0 then (2 ^ 31 - 1 : Int) else (px - mxx).tdiv dx) with hnxE
        set nyE := (if dy = 0 then (2 ^ 31 - 1 : Int) else (py - mxy).tdiv dy) with hnyE
        have hnx0 : 0 ≤ nxE := by rw [hnxE]; exact nxNonnegNeg mxx px dx hp2 hdx
        have hny0 : 0 ≤ nyE := by rw [hnyE]; exact nxNonnegNeg mxy py dy hp4 hdy
        have hn0 : 0 ≤ min nxE nyE := le_min hnx0 hny0
        have hlex : dx < 0 → min nxE nyE ≤ (px - mxx).tdiv dx := by
          intro h0
          have he : nxE = (px - mxx).tdiv dx := by rw [hnxE, if_neg (by omega)]
          rw [← he]
          exact min_le_left _ _
        have hley : dy < 0 → min nxE nyE ≤ (py - mxy).tdiv dy := by
          intro h0
          have he : nyE = (py - mxy).tdiv dy := by rw [hnyE, if_neg (by omega)]
          rw [← he]
          exact min_le_right _ _
        obtain ⟨wx, bx1, bx2⟩ := axisResult mnx mxx px dx (min nxE nyE)
          hp1 hp2 hr1 hr2 hn0 (fun h0 => absurd h0 (by omega)) hlex
        obtain ⟨wy, by1, by2⟩ := axisResult mny mxy py dy (min nxE nyE)
          hp3 hp4 hr3 hr4 hn0 (fun h0 => absurd h0 (by omega)) hley
        refine ⟨?_, ?_, ?_⟩
        · intro hA
          rcases hW with h | h
          · exact absurd hA.1.1 (by omega)
          · exact absurd hA.2.1 (by omega)
        · intro hB
          rw [wx]
          exact ⟨bx1, bx2⟩
        · intro hC
          rw [wy]
          exact ⟨by1, by2⟩
      · push_neg at hW
        rw [if_neg (show ¬ ((decide (px < mnx - dx) || decide (py < mny - dy)) = true) by
          simp only [Bool.or_eq_true, decide_eq_true_eq]; push_neg; exact hW)]
        refine ⟨fun _ => rfl, ?_, ?_⟩
        · intro hB
          exact absurd ⟨by omega, by omega⟩ hB
        · intro hC
          exact absurd ⟨by omega, by omega⟩ hC

/-- C6 counterexample: the claim as frozen quantifies over every point,
including points outside the bounding box.  On the space with cells at
(0,0) and (10,0) (bounding box [0,10] x [0,0]), stepping from the
outside point (0, 20) by (1, 1) leaves the box on the y axis
(`is_last` is true and `20 + 1` exceeds `max_y = 0`), yet
`new_position` returns (0, 20), whose y coordinate 20 does not lie in
the closed interval [0, 0]. -/
theorem c6_counterexample :
    ((((Space.new.set ⟨0, 0⟩ 65).set ⟨10, 0⟩ 66).bounds.min_x = 0 ∧
      ((Space.new.set ⟨0, 0⟩ 65).set ⟨10, 0⟩ 66).bounds.max_x = 10 ∧
      ((Space.new.set ⟨0, 0⟩ 65).set ⟨10, 0⟩ 66).bounds.min_y = 0 ∧
      ((Space.new.set ⟨0, 0⟩ 65).set ⟨10, 0⟩ 66).bounds.max_y = 0) ∧
    ((Space.new.set ⟨0, 0⟩ 65).set ⟨10, 0⟩ 66).is_last ⟨0, 20⟩ ⟨1, 1⟩ = true ∧
    ¬(((Space.new.set ⟨0, 0⟩ 65).set ⟨10, 0⟩ 66).bounds.min_y ≤ 20 + 1 ∧
      20 + 1 ≤ ((Space.new.set ⟨0, 0⟩ 65).set ⟨10, 0⟩ 66).bounds.max_y)) ∧
    ((Space.new.set ⟨0, 0⟩ 65).set ⟨10, 0⟩ 66).new_position ⟨0, 20⟩ ⟨1, 1⟩ = ⟨0, 20⟩ ∧
    ¬(((Space.new.set ⟨0, 0⟩ 65).set ⟨10, 0⟩ 66).bounds.min_y ≤
        ((((Space.new.set ⟨0, 0⟩ 65).set ⟨10, 0⟩ 66).new_position ⟨0, 20⟩ ⟨1, 1⟩).y) ∧
      ((((Space.new.set ⟨0, 0⟩ 65).set ⟨10, 0⟩ 66).new_position ⟨0, 20⟩ ⟨1, 1⟩).y) ≤
        ((Space.new.set ⟨0, 0⟩ 65).set ⟨10, 0⟩ 66).bounds.max_y) := by decide

/-- C6 witness: the same space, with the in-box point (5, 0) and delta
(10, 0), exercising the amended theorem (the step wraps on the x axis
and lands back inside the box). -/
theorem c6_new_position_witness :
    ((((Space.new.set ⟨0, 0⟩ 65).set ⟨10, 0⟩ 66).bounds.min_x ≤ 5 + 10 ∧
      5 + 10 ≤ ((Space.new.set ⟨0, 0⟩ 65).set ⟨10, 0⟩ 66).bounds.max_x) ∧
     (((Space.new.set ⟨0, 0⟩ 65).set ⟨10, 0⟩ 66).bounds.min_y ≤ 0 + 0 ∧
      0 + 0 ≤ ((Space.new.set ⟨0, 0⟩ 65).set ⟨10, 0⟩ 66).bounds.max_y) →
       ((Space.new.set ⟨0, 0⟩ 65).set ⟨10, 0⟩ 66).new_position ⟨5, 0⟩ ⟨10, 0⟩ =
         Point.addD ⟨5, 0⟩ ⟨10, 0⟩) ∧
    (¬(((Space.new.set ⟨0, 0⟩ 65).set ⟨10, 0⟩ 66).bounds.min_x ≤ 5 + 10 ∧
       5 + 10 ≤ ((Space.new.set ⟨0, 0⟩ 65).set ⟨10, 0⟩ 66).bounds.max_x) →
       ((Space.new.set ⟨0, 0⟩ 65).set ⟨10, 0⟩ 66).bounds.min_x ≤
         (((Space.new.set ⟨0, 0⟩ 65).set ⟨10, 0⟩ 66).new_position ⟨5, 0⟩ ⟨10, 0⟩).x ∧
       (((Space.new.set ⟨0, 0⟩ 65).set ⟨10, 0⟩ 66).new_position ⟨5, 0⟩ ⟨10, 0⟩).x ≤
         ((Space.new.set ⟨0, 0⟩ 65).set ⟨10, 0⟩ 66).bounds.max_x) ∧
    (¬(((Space.new.set ⟨0, 0⟩ 65).set ⟨10, 0⟩ 66).bounds.min_y ≤ 0 + 0 ∧
       0 + 0 ≤ ((Space.new.set ⟨0, 0⟩ 65).set ⟨10, 0⟩ 66).bounds.max_y) →
       ((Space.new.set ⟨0, 0⟩ 65).set ⟨10, 0⟩ 66).bounds.min_y ≤
         (((Space.new.set ⟨0, 0⟩ 65).set ⟨10, 0⟩ 66).new_position ⟨5, 0⟩ ⟨10, 0⟩).y ∧
       (((Space.new.set ⟨0, 0⟩ 65).set ⟨10, 0⟩ 66).new_position ⟨5, 0⟩ ⟨10, 0⟩).y ≤
         ((Space.new.set ⟨0, 0⟩ 65).set ⟨10, 0⟩ 66).bounds.max_y) :=
  c6_new_position ((Space.new.set ⟨0, 0⟩ 65).set ⟨10, 0⟩ 66) ⟨5, 0⟩ ⟨10, 0⟩
    (by decide) (by decide) (by decide) (by decide) (by decide) (by decide)
    (by decide) (by decide) (by decide) (by decide) (by decide) (by decide)
    (by decide) (by decide)

/-! ## Model validation

Named mirrors of the unit tests in src/data/space.rs and
src/data/stack.rs, checking the embedding against the behaviour the
repository itself asserts. -/

/-- Mirror of the `space_get_uninit` and `space_get_empty` tests. -/
theorem model_space_get_empty :
    Space.new.get ⟨0, 0⟩ = 32 ∧ (Space.new.set ⟨0, 0⟩ 40).get ⟨1, 0⟩ = 32 := by decide

/-- Mirror of the `space_set_get` test. -/
theorem model_space_set_get : (Space.new.set ⟨3, 6⟩ 45).get ⟨3, 6⟩ = 45 := by decide

/-- Mirror of the `space_set_get_large` test: a write at the far corner
of the address space grows the tree to depth 7 and reads back. -/
theorem model_space_set_get_large :
    (Space.new.set ⟨2147483647, -1029771328⟩ 1307812).get
      ⟨2147483647, -1029771328⟩ = 1307812 := by decide

/-- Mirror of the `space_set_get_multiple` test. -/
theorem model_space_set_get_multiple :
    ((((Space.new.set ⟨0, 0⟩ 12).set ⟨3, 2⟩ 0).set ⟨-2, -1⟩ (-42)).set
        ⟨1, -3⟩ 6).get ⟨0, 0⟩ = 12 ∧
    ((((Space.new.set ⟨0, 0⟩ 12).set ⟨3, 2⟩ 0).set ⟨-2, -1⟩ (-42)).set
        ⟨1, -3⟩ 6).get ⟨3, 2⟩ = 0 ∧
    ((((Space.new.set ⟨0, 0⟩ 12).set ⟨3, 2⟩ 0).set ⟨-2, -1⟩ (-42)).set
        ⟨1, -3⟩ 6).get ⟨-2, -1⟩ = -42 ∧
    ((((Space.new.set ⟨0, 0⟩ 12).set ⟨3, 2⟩ 0).set ⟨-2, -1⟩ (-42)).set
        ⟨1, -3⟩ 6).get ⟨1, -3⟩ = 6 := by decide

/-- Mirror of the `space_grow_bounds` and `space_keep_bounds` tests. -/
theorem model_space_bounds :
    ((((Space.new.set ⟨0, 0⟩ 42).set ⟨-3, 5⟩ 1).set ⟨2, -1⟩ 2).bounds.min_x,
     (((Space.new.set ⟨0, 0⟩ 42).set ⟨-3, 5⟩ 1).set ⟨2, -1⟩ 2).bounds.min_y) =
      (-3, -1) ∧
    ((((Space.new.set ⟨0, 0⟩ 42).set ⟨-3, 5⟩ 1).set ⟨2, -1⟩ 2).bounds.max_x,
     (((Space.new.set ⟨0, 0⟩ 42).set ⟨-3, 5⟩ 1).set ⟨2, -1⟩ 2).bounds.max_y) =
      (2, 5) ∧
    (((Space.new.set ⟨0, 0⟩ 42).set ⟨-2, 3⟩ 32).bounds.min_x,
     ((Space.new.set ⟨0, 0⟩ 42).set ⟨-2, 3⟩ 32).bounds.max_x) = (0, 0) := by decide

/-- Mirror of the `stack_push_pop_multiple` and `stack_string` tests. -/
theorem model_stack_tests :
    (StackStack.new.push 1 |>.push 2 |>.pop).1 = 2 ∧
    (StackStack.new.push 1 |>.push_string [66, 101]).1 = 3 ∧
    ((StackStack.new.push 1 |>.push_string [66, 101]).2.pop_string).1 =
      some [66, 101] ∧
    ((StackStack.new.push 1 |>.push_string [66, 101]).2.pop_string).2.pop.1 = 1 := by
  decide
